import Mathlib

/-!
Shallow embedding of `model.py` (ShellNet-style point-cloud row detection).

Tensors are modelled as nested lists of rationals (`ℚ` stands for the exact
values; PyTorch float32 rounding is outside the model).  `torch.cdist`
computes Euclidean distances; since the model only ever uses distances for
`topk` selection and ordering, we embed the squared Euclidean distance
(`sqDist`), which induces exactly the same order (the square root is
monotone on nonnegative numbers).

Python `None` accumulators are modelled with `Option`; Python runtime
errors (IndexError, the `topk` k-out-of-range RuntimeError, calling a
method on `None`) are modelled with `Except.error`.
-/

abbrev Vec : Type := List ℚ
abbrev Mat : Type := List Vec
abbrev T3 : Type := List Mat
abbrev T4 : Type := List T3
abbrev T5 : Type := List T4
abbrev Idx2 : Type := List (List ℕ)
abbrev Idx3 : Type := List Idx2
abbrev Idx4 : Type := List Idx3

/-- Shape predicate: a 1-dimensional tensor of extent `a`. -/
abbrev Dims1 {α : Type} (x : List α) (a : ℕ) : Prop := x.length = a

/-- Shape predicate: a 2-dimensional tensor of extents `a × b`. -/
abbrev Dims2 {α : Type} (x : List (List α)) (a b : ℕ) : Prop :=
  x.length = a ∧ ∀ y ∈ x, Dims1 y b

/-- Shape predicate: a 3-dimensional tensor of extents `a × b × c`. -/
abbrev Dims3 {α : Type} (x : List (List (List α))) (a b c : ℕ) : Prop :=
  x.length = a ∧ ∀ y ∈ x, Dims2 y b c

/-- Shape predicate: a 4-dimensional tensor of extents `a × b × c × d`. -/
abbrev Dims4 {α : Type} (x : List (List (List (List α)))) (a b c d : ℕ) : Prop :=
  x.length = a ∧ ∀ y ∈ x, Dims3 y b c d

/-- Shape predicate: a 5-dimensional tensor of extents `a × b × c × d × e`. -/
abbrev Dims5 {α : Type} (x : List (List (List (List (List α))))) (a b c d e : ℕ) : Prop :=
  x.length = a ∧ ∀ y ∈ x, Dims4 y b c d e

/-- Every entry of a 4-dimensional tensor satisfies `P`. -/
abbrev Forall4 {α : Type} (P : α → Prop) (x : List (List (List (List α)))) : Prop :=
  ∀ a ∈ x, ∀ b ∈ a, ∀ c ∈ b, ∀ d ∈ c, P d

/-- Every entry of a 5-dimensional tensor satisfies `P`. -/
abbrev Forall5 {α : Type} (P : α → Prop) (x : List (List (List (List (List α))))) : Prop :=
  ∀ a ∈ x, ∀ b ∈ a, ∀ c ∈ b, ∀ d ∈ c, ∀ e ∈ d, P e

/-- Squared Euclidean distance between two coordinate vectors.  Embeds the
distance used by `torch.cdist` in `knn_one_batch`; the square root is
dropped because only the induced order is ever used (see module header). -/
def sqDist (p q : Vec) : ℚ :=
  ((p.zip q).map (fun c => (c.1 - c.2) * (c.1 - c.2))).sum

/-- `dist = torch.cdist(point, query)` (model.py line 22): the `N × M`
matrix of (squared, see `sqDist`) distances. -/
def cdist (point query : Mat) : Mat :=
  point.map (fun p => query.map (fun q => sqDist p q))

/-- Index sort of one distance column: the indices `0..col.length-1`
reordered so that the corresponding values of `col` are ascending.  This is
the per-column effect of `dist.topk(K, dim=0, largest=False, sorted=True)`
(model.py line 23); PyTorch leaves the order of ties unspecified, the
embedding fixes one concrete (stable) tie order. -/
def argsort (col : Vec) : List ℕ :=
  List.insertionSort (fun i j => col.getD i 0 ≤ col.getD j 0) (List.range col.length)

/-- Column `j` of a matrix (used to read one query's distances out of the
`cdist` matrix, whose dim 0 ranges over reference points). -/
def colAt (dist : Mat) (j : ℕ) : Vec :=
  dist.map (fun row => row.getD j 0)

/-- Success value of `topk` + `transpose(0,1)` on the distance matrix of one
group (model.py lines 22-24): row `m` lists the `K` reference-point indices
nearest to query `m`, ascending by distance. -/
def knnGroupOk (point query : Mat) (K : ℕ) : Idx2 :=
  (List.range query.length).map (fun j => (argsort (colAt (cdist point query) j)).take K)

/-- One iteration of the `knn_one_batch` loop body up to `idxs` (model.py
lines 20-24): `topk` raises a RuntimeError when `K` exceeds the size of the
selection dimension (`dist.shape[0]`, the number of reference points). -/
def knnGroup (point query : Mat) (K : ℕ) : Except String Idx2 :=
  if K ≤ (cdist point query).length then Except.ok (knnGroupOk point query K)
  else Except.error "selected index k out of range"

/-- `nn = point[idxs]` (model.py line 25): gather the coordinates of the
selected reference points, preserving the index order. -/
def gatherPts (point : Mat) (idxs : Idx2) : T3 :=
  idxs.map (fun row => row.map (fun i => point.getD i []))

/-- The `for i in range(points.shape[0])` loop of `knn_one_batch` (model.py
lines 19-29), accumulating the per-group results in order.  Indexing
`queries[i]` past the end of `queries` is a Python IndexError. -/
def knnPairs : T3 → T3 → ℕ → Except String (T4 × Idx3)
  | [], _, _ => Except.ok ([], [])
  | _ :: _, [], _ => Except.error "index out of range"
  | p :: ps, q :: qs, K =>
    match knnGroup p q K with
    | Except.error e => Except.error e
    | Except.ok idxs =>
      match knnPairs ps qs K with
      | Except.error e => Except.error e
      | Except.ok rest => Except.ok (gatherPts p idxs :: rest.1, idxs :: rest.2)

/-- `knn_one_batch` (model.py lines 6-31).  The accumulators `value` and
`indices` start as `None` and are only replaced inside the loop, so an
empty group axis returns `(None, None)`. -/
def knn_one_batch (points queries : T3) (K : ℕ) :
    Except String (Option T4 × Option Idx3) :=
  match points with
  | [] => Except.ok (none, none)
  | _ :: _ =>
    match knnPairs points queries K with
    | Except.error e => Except.error e
    | Except.ok r => Except.ok (some r.1, some r.2)

/-- The `for i in range(num_batch)` loop of `knn` (model.py lines 47-54).
`knn_batch.unsqueeze(0)` is an AttributeError when `knn_one_batch` returned
`None` (empty group axis); indexing `queries[i]` past the end is a Python
IndexError. -/
def knnBatches : T4 → T4 → ℕ → Except String (T5 × Idx4)
  | [], _, _ => Except.ok ([], [])
  | _ :: _, [], _ => Except.error "index out of range"
  | p :: ps, q :: qs, K =>
    match knn_one_batch p q K with
    | Except.error e => Except.error e
    | Except.ok (some v, some ix) =>
      match knnBatches ps qs K with
      | Except.error e => Except.error e
      | Except.ok rest => Except.ok (v :: rest.1, ix :: rest.2)
    | Except.ok _ => Except.error "NoneType object has no attribute unsqueeze"

/-- `knn` (model.py lines 33-55).  The accumulators start as `None` and are
only replaced inside the per-batch loop, so an empty batch axis returns
`(None, None)`. -/
def knn (points queries : T4) (K : ℕ) :
    Except String (Option T5 × Option Idx4) :=
  match points with
  | [] => Except.ok (none, none)
  | _ :: _ =>
    match knnBatches points queries K with
    | Except.error e => Except.error e
    | Except.ok r => Except.ok (some r.1, some r.2)

/-- `point_feature_1d[indices[B][L]]` for one index row (model.py line 72):
advanced indexing, a pure lookup preserving index order. -/
def gatherRow (pf : Mat) (row : List ℕ) : Mat :=
  row.map (fun i => pf.getD i [])

/-- `point_feature_1d[indices[B][L]]` for the whole `M × K` index map of one
group (model.py line 72). -/
def gatherGroup (pf : Mat) (ix2 : Idx2) : T3 :=
  ix2.map (gatherRow pf)

/-- The inner `for L, point_feature_1d in enumerate(point_feature_2d)` loop
of `gather_feature` (model.py lines 71-73); `indices[B][L]` past the end of
the index tensor is a Python IndexError. -/
def gatherBatchGo : T3 → Idx3 → Except String T4
  | [], _ => Except.ok []
  | _ :: _, [] => Except.error "index out of range"
  | pf :: pfs, ix :: ixs =>
    match gatherBatchGo pfs ixs with
    | Except.error e => Except.error e
    | Except.ok rest => Except.ok (gatherGroup pf ix :: rest)

/-- The outer `for B, point_feature_2d in enumerate(feat)` loop of
`gather_feature` (model.py lines 69-75).  `one_batch.unsqueeze(0)` is an
AttributeError when the group axis of a batch is empty (the inner
accumulator stayed `None`). -/
def gatherBatches : T4 → Idx4 → Except String T5
  | [], _ => Except.ok []
  | pf2 :: _, [] =>
    match pf2 with
    | _ => Except.error "index out of range"
  | pf2 :: pfs, ix3 :: ixs =>
    match pf2 with
    | [] => Except.error "NoneType object has no attribute unsqueeze"
    | _ :: _ =>
      match gatherBatchGo pf2 ix3 with
      | Except.error e => Except.error e
      | Except.ok g =>
        match gatherBatches pfs ixs with
        | Except.error e => Except.error e
        | Except.ok rest => Except.ok (g :: rest)

/-- `gather_feature` (model.py lines 57-76).  The accumulator `res` starts
as `None` and is only replaced inside the per-batch loop, so an empty batch
axis returns `None`. -/
def gather_feature (feat : T4) (indices : Idx4) : Except String (Option T5) :=
  match feat with
  | [] => Except.ok none
  | _ :: _ =>
    match gatherBatches feat indices with
    | Except.error e => Except.error e
    | Except.ok r => Except.ok (some r)

example : knnGroupOk [[0,0,0],[1,0,0],[5,0,0]] [[0,0,0]] 2 = [[0, 1]] := by
  norm_num [knnGroupOk, argsort, colAt, cdist, sqDist, List.insertionSort,
    List.orderedInsert, List.range, List.range.loop]

example :
    knn [[[[0,0,0],[1,0,0],[5,0,0]]]] [[[[0,0,0]]]] 2 =
      Except.ok (some [[[[[0,0,0],[1,0,0]]]]], some [[[[0, 1]]]]) := by
  norm_num [knn, knnBatches, knn_one_batch, knnPairs, knnGroup, gatherPts,
    knnGroupOk, argsort, colAt, cdist, sqDist, List.insertionSort,
    List.orderedInsert, List.range, List.range.loop]

example : gather_feature [[[[10],[11],[12]]]] [[[[2,0]]]] =
    Except.ok (some [[[[[12],[10]]]]]) := by
  norm_num [gather_feature, gatherBatches, gatherBatchGo, gatherGroup, gatherRow]

/-- Rectified linear unit, `F.relu` applied to one entry. -/
def relu (x : ℚ) : ℚ := max x 0

/-- Apply `f` to each innermost (feature-axis) vector of a 5-D tensor. -/
def mapVec4 (f : Vec → Vec) (x : T5) : T5 :=
  x.map (fun a => a.map (fun b => b.map (fun c => c.map f)))

/-- Apply `f` to every entry of a 5-D tensor. -/
def map5 (f : ℚ → ℚ) (x : T5) : T5 := mapVec4 (List.map f) x

/-- Dot product of two vectors (truncating at the shorter, as the shapes
always agree in the source). -/
def dot (w v : Vec) : ℚ := ((w.zip v).map (fun c => c.1 * c.2)).sum

/-- `nn.Linear(in, out)` applied to one feature vector: row `o` of the
output is `W[o] ⬝ v + b[o]`.  PyTorch applies this along the last axis. -/
def linear (W : Mat) (b : Vec) (v : Vec) : Vec :=
  (W.zip b).map (fun rb => dot rb.1 v + rb.2)

/-- All entries of a 5-D tensor that sit at position `c` of the feature
(last) axis, flattened in order. -/
def chanVals (x : T5) (c : ℕ) : Vec :=
  (x.flatten.flatten.flatten).map (fun v => v.getD c 0)

/-- Arithmetic mean (division by zero yields `0` in `ℚ`; the source never
normalizes an empty batch). -/
def meanQ (l : Vec) : ℚ := l.sum / (l.length : ℚ)

/-- Biased variance, as used by batch normalization in training mode. -/
def varQ (l : Vec) : ℚ := meanQ (l.map (fun v => (v - meanQ l) * (v - meanQ l)))

/-- The `eps` default of `nn.BatchNorm3d`. -/
def bnEps : ℚ := 1 / 100000

/-- `nn.BatchNorm3d(C)` in training mode, with the channel axis moved to
the feature (last) axis — the source wraps each call in
`transpose(1,4) … transpose(1,4)` (model.py lines 100, 102) or in
`permute` (lines 133-135, 163) so that the normalized axis is exactly the
last axis of our layout.  Per channel `c`: subtract the batch mean, divide
by the square root of (biased batch variance + eps), scale by the learned
`γ` and shift by the learned `β`.  The square root is not exact on `ℚ`, so
it is passed in as an explicit function `sq`; the update of the running
statistics is state that never influences a training-mode output and is
not modelled. -/
def batchNorm3d (sq : ℚ → ℚ) (g b : Vec) (x : T5) : T5 :=
  mapVec4 (fun v => (List.range v.length).map (fun c =>
    (v.getD c 0 - meanQ (chanVals x c)) / sq (varQ (chanVals x c) + bnEps)
      * g.getD c 1 + b.getD c 0)) x

/-- Learned parameters of `Lift` (model.py lines 79-94): the flag, the two
batch-norm parameter sets and the two linear layers. -/
structure LiftParams where
  is_batchnorm : Bool
  bn1g : Vec
  bn1b : Vec
  w1 : Mat
  b1 : Vec
  bn2g : Vec
  bn2b : Vec
  w2 : Mat
  b2 : Vec

/-- `Lift.forward` (model.py lines 97-109): with normalization, the
pipeline is bn1 → linear1 → relu → bn2 → linear2 → relu; without it the
two batch-norm steps are skipped.  Both branches end in a ReLU. -/
def Lift.forward (sq : ℚ → ℚ) (p : LiftParams) (x : T5) : T5 :=
  if p.is_batchnorm then
    map5 relu (mapVec4 (linear p.w2 p.b2)
      (batchNorm3d sq p.bn2g p.bn2b
        (map5 relu (mapVec4 (linear p.w1 p.b1)
          (batchNorm3d sq p.bn1g p.bn1b x)))))
  else
    map5 relu (mapVec4 (linear p.w2 p.b2) (map5 relu (mapVec4 (linear p.w1 p.b1) x)))

/-- Element-wise maximum of a stack of rows (the reduction of one pooling
window); empty stacks do not occur in the source. -/
def windowMax : Mat → Vec
  | [] => []
  | r :: rs => rs.foldl (fun acc row => List.zipWith max acc row) r

/-- `nn.MaxPool3d((1, S, 1), stride=(1, S, 1))` (model.py line 131) applied
to a `B × L × M × K × C` tensor: PyTorch reads it as `(N, C, D, H, W) =
(B, L, M, K, C)` and pools only the `H` (neighbor) axis, producing
`floor((K - S)/S) + 1 = K / S` windows `[j*S, j*S + S)` (no padding).
For `K < S` PyTorch raises; the source only ever uses `K ≥ S`. -/
def maxPoolNeighbor (S : ℕ) (x : T5) : T5 :=
  x.map (fun a => a.map (fun b => b.map (fun mat =>
    (List.range (mat.length / S)).map (fun j => windowMax ((mat.drop (j * S)).take S)))))

/-- One output entry of `nn.Conv3d(in, out, (1, 1, division))` at output
channel `o` (kernel `Wo : C × division`) and depth offset `d`, reading the
input window `mat[d .. d+division) × C`. -/
def convEntry (Wo : Mat) (mat : Mat) (d : ℕ) : ℚ :=
  ((List.range Wo.length).map (fun c =>
    ((List.range (Wo.getD c []).length).map (fun t =>
      (Wo.getD c []).getD t 0 * (mat.getD (d + t) []).getD c 0)).sum)).sum

/-- `nn.Conv3d(in_channel, out_channel, (1, 1, division))` (model.py lines
135/138) with the two permutes of `ShellConv.forward` (lines 163-164)
fused in: the source computes `permute(0,4,1,2,3)`, the convolution over
layout `(B, C, L, M, div)`, then `permute(0,2,3,4,1)`; composed, the input
and output stay in our `B × L × M × div × C` layout and the kernel slides
only over the `div` axis, with `div + 1 - kD` output positions. -/
def convProj (W : T3) (bias : Vec) (kD : ℕ) (x : T5) : T5 :=
  x.map (fun a => a.map (fun b => b.map (fun mat =>
    (List.range (mat.length + 1 - kD)).map (fun d =>
      (W.zip bias).map (fun ob => convEntry ob.1 mat d + ob.2)))))

/-- `output.squeeze(3)` (model.py line 166): drops axis 3, which at this
point always has extent 1 (the convolution kernel spans the whole `div`
axis); the embedding assumes that extent (PyTorch would keep a larger
axis). -/
def squeeze3 (x : T5) : T4 :=
  x.map (fun a => a.map (fun b => b.map (fun ds => ds.getD 0 [])))

/-- `nn_center - nn_pts` after `nn_center = queries.unsqueeze(3)` (model.py
lines 151-152): for every query its coordinate minus each of its K
neighbor coordinates (the query broadcast over the neighbor axis). -/
def localOffsets (queries : T4) (nn_pts : T5) : T5 :=
  List.zipWith (fun qb vb => List.zipWith (fun ql vl => List.zipWith (fun q vm =>
    vm.map (fun p => List.zipWith (fun a b => a - b) q p)) ql vl) qb vb) queries nn_pts

/-- `torch.cat((nn_feat_local, feat_prev), dim=-1)` (model.py line 158). -/
def concatLast (x y : T5) : T5 :=
  List.zipWith (List.zipWith (List.zipWith (List.zipWith (fun u v => u ++ v)))) x y

/-- Configuration and learned parameters of `ShellConv` (model.py lines
112-138).  `conv_bn = some (γ, β)` models the `nn.BatchNorm3d(in_channel)`
in front of the projection convolution when `is_batchnorm` was true. -/
structure ShellConvParams where
  out_features : ℕ
  prev_features : ℕ
  K : ℕ
  S : ℕ
  division : ℕ
  lift : LiftParams
  conv_bn : Option (Vec × Vec)
  convW : T3
  convB : Vec

/-- `ShellConv.__init__` (model.py lines 113-138).  `S = int(K/division)`
truncates (`Nat` division for the nonnegative sizes involved) with no
divisibility check; `self.lift = Lift(3, self.point_feature)` leaves
`Lift`'s `is_batchnorm` at its default `True` whatever the `ShellConv`
flag; the flag only decides whether a `BatchNorm3d` precedes the final
convolution.  The learned tensors themselves (randomly initialized by
PyTorch) are taken as arguments. -/
def ShellConv.init (out_features prev_features neighbor division : ℕ)
    (is_batchnorm : Bool) (lp : LiftParams) (bn : Vec × Vec) (cw : T3) (cb : Vec) :
    ShellConvParams :=
  { out_features := out_features, prev_features := prev_features,
    K := neighbor, S := neighbor / division, division := division,
    lift := { lp with is_batchnorm := true },
    conv_bn := if is_batchnorm then some bn else none,
    convW := cw, convB := cb }

/-- `ShellConv.forward` (model.py lines 140-166): knn → local offsets →
`Lift` → optional gather-and-concat of previous features → shell max-pool
→ (optional batch-norm →) projection convolution → squeeze.  A `None`
result from `knn` or `gather_feature` (empty batch axis) makes the
subtraction resp. concatenation a Python TypeError. -/
def ShellConv.forward (sq : ℚ → ℚ) (sc : ShellConvParams) (points queries : T4)
    (feat_prev : Option T4) : Except String T4 :=
  match knn points queries sc.K with
  | Except.error e => Except.error e
  | Except.ok (vOpt, iOpt) =>
    match vOpt, iOpt with
    | some nn_pts, some idxs =>
      let nn_feat_local := Lift.forward sq sc.lift (localOffsets queries nn_pts)
      let fc : Except String T5 :=
        match feat_prev with
        | some fp =>
          match gather_feature fp idxs with
          | Except.error e => Except.error e
          | Except.ok (some gf) => Except.ok (concatLast nn_feat_local gf)
          | Except.ok none => Except.error "unsupported operand type"
        | none => Except.ok nn_feat_local
      match fc with
      | Except.error e => Except.error e
      | Except.ok feat_cat =>
        let feat_max := maxPoolNeighbor sc.S feat_cat
        let pre :=
          match sc.conv_bn with
          | some gb => batchNorm3d sq gb.1 gb.2 feat_max
          | none => feat_max
        Except.ok (squeeze3 (convProj sc.convW sc.convB sc.division pre))
    | _, _ => Except.error "unsupported operand type"

/-- Reading a 2-D slice out of a 4-D tensor. -/
def mat4 {α : Type} (x : List (List (List (List α)))) (b l : ℕ) : List (List α) :=
  (x.getD b []).getD l []

/-- Reading a 1-D slice out of a 4-D tensor. -/
def vec4 {α : Type} (x : List (List (List (List α)))) (b l m : ℕ) : List α :=
  ((x.getD b []).getD l []).getD m []

/-- Reading a 1-D slice out of a 5-D tensor. -/
def vec5 {α : Type} (x : List (List (List (List (List α))))) (b l m k : ℕ) : List α :=
  (((x.getD b []).getD l []).getD m []).getD k []

/-- One scalar entry of a 5-D tensor. -/
def ent5 (x : T5) (b l m k c : ℕ) : ℚ := (vec5 x b l m k).getD c 0

lemma getD_map_of_lt {α β : Type} (f : α → β) (l : List α) {n : ℕ} (h : n < l.length)
    (d : α) (d' : β) : (l.map f).getD n d' = f (l.getD n d) := by
  rw [List.getD_eq_getElem (l.map f) d' (by simpa using h), List.getD_eq_getElem l d h,
    List.getElem_map]

lemma getD_zipWith_of_lt {α β γ : Type} (f : α → β → γ) {as : List α} {bs : List β} {n : ℕ}
    (ha : n < as.length) (hb : n < bs.length) (da : α) (db : β) (dc : γ) :
    (List.zipWith f as bs).getD n dc = f (as.getD n da) (bs.getD n db) := by
  have hl : n < (List.zipWith f as bs).length := by
    rw [List.length_zipWith]; exact lt_min ha hb
  rw [List.getD_eq_getElem _ dc hl, List.getD_eq_getElem as da ha,
    List.getD_eq_getElem bs db hb, List.getElem_zipWith]

lemma getD_range_of_lt {n i : ℕ} (h : i < n) (d : ℕ) : (List.range n).getD i d = i := by
  rw [List.getD_eq_getElem _ d (by simpa using h), List.getElem_range]

lemma getD_mem {α : Type} {l : List α} {n : ℕ} (h : n < l.length) (d : α) :
    l.getD n d ∈ l := by
  rw [List.getD_eq_getElem l d h]
  exact List.getElem_mem h

lemma mem_zipWith {α β γ : Type} {f : α → β → γ} {as : List α} {bs : List β} {c : γ}
    (h : c ∈ List.zipWith f as bs) : ∃ a ∈ as, ∃ b ∈ bs, c = f a b := by
  induction as generalizing bs with
  | nil => simp at h
  | cons a as ih =>
    cases bs with
    | nil => simp at h
    | cons b bs =>
      rw [List.zipWith_cons_cons, List.mem_cons] at h
      rcases h with h | h
      · exact ⟨a, by simp, b, by simp, h⟩
      · obtain ⟨a', ha', b', hb', rfl⟩ := ih h
        exact ⟨a', by simp [ha'], b', by simp [hb'], rfl⟩

lemma dims4_mat4 {α : Type} {x : List (List (List (List α)))} {B L N c b l : ℕ}
    (h : Dims4 x B L N c) (hb : b < B) (hl : l < L) : Dims2 (mat4 x b l) N c := by
  obtain ⟨hlen, hmem⟩ := h
  obtain ⟨hlen1, hmem1⟩ := hmem _ (getD_mem (n := b) (by omega) [])
  exact hmem1 _ (getD_mem (n := l) (by omega) [])

lemma argsort_perm (col : Vec) : (argsort col).Perm (List.range col.length) :=
  List.perm_insertionSort _ _

lemma argsort_length (col : Vec) : (argsort col).length = col.length := by
  rw [(argsort_perm col).length_eq, List.length_range]

lemma argsort_sorted (col : Vec) :
    (argsort col).Pairwise (fun i j => col.getD i 0 ≤ col.getD j 0) := by
  haveI : IsTotal ℕ (fun i j => col.getD i 0 ≤ col.getD j 0) := ⟨fun _ _ => le_total _ _⟩
  haveI : IsTrans ℕ (fun i j => col.getD i 0 ≤ col.getD j 0) :=
    ⟨fun _ _ _ hab hbc => le_trans hab hbc⟩
  exact List.sorted_insertionSort _ _

lemma topk_length (col : Vec) {K : ℕ} (hK : K ≤ col.length) :
    ((argsort col).take K).length = K := by
  rw [List.length_take, argsort_length]
  omega

lemma topk_nodup (col : Vec) (K : ℕ) : ((argsort col).take K).Nodup :=
  List.Nodup.sublist (List.take_sublist _ _)
    ((argsort_perm col).symm.nodup (List.nodup_range _))

lemma topk_mem_lt (col : Vec) (K : ℕ) {i : ℕ} (hi : i ∈ (argsort col).take K) :
    i < col.length := by
  have h := List.mem_of_mem_take hi
  exact List.mem_range.mp ((argsort_perm col).mem_iff.mp h)

lemma topk_sorted (col : Vec) (K : ℕ) :
    ((argsort col).take K).Pairwise (fun i j => col.getD i 0 ≤ col.getD j 0) :=
  List.Pairwise.sublist (List.take_sublist _ _) (argsort_sorted col)

lemma topk_min (col : Vec) (K : ℕ) {j : ℕ} (hj : j < col.length)
    (hnot : j ∉ (argsort col).take K) {i : ℕ} (hi : i ∈ (argsort col).take K) :
    col.getD i 0 ≤ col.getD j 0 := by
  have hjmem : j ∈ argsort col := (argsort_perm col).mem_iff.mpr (List.mem_range.mpr hj)
  have hsplit : (argsort col).take K ++ (argsort col).drop K = argsort col :=
    List.take_append_drop K _
  have hpair := argsort_sorted col
  rw [← hsplit] at hpair hjmem
  rcases List.mem_append.mp hjmem with h | h
  · exact absurd h hnot
  · exact (List.pairwise_append.mp hpair).2.2 i hi j h

lemma colAt_cdist {point query : Mat} {j : ℕ} (hj : j < query.length) :
    colAt (cdist point query) j = point.map (fun p => sqDist p (query.getD j [])) := by
  unfold colAt cdist
  rw [List.map_map]
  apply List.map_congr_left
  intro p _
  exact getD_map_of_lt _ _ hj [] 0

lemma colAt_cdist_length (point query : Mat) (j : ℕ) :
    (colAt (cdist point query) j).length = point.length := by
  simp [colAt, cdist]

lemma colAt_cdist_getD {point query : Mat} {j i : ℕ} (hj : j < query.length)
    (hi : i < point.length) :
    (colAt (cdist point query) j).getD i 0 = sqDist (point.getD i []) (query.getD j []) := by
  rw [colAt_cdist hj]
  exact getD_map_of_lt _ _ hi [] 0

lemma knnGroupOk_length (point query : Mat) (K : ℕ) :
    (knnGroupOk point query K).length = query.length := by
  simp [knnGroupOk]

lemma knnGroupOk_getD {point query : Mat} (K : ℕ) {m : ℕ} (hm : m < query.length) :
    (knnGroupOk point query K).getD m [] =
      (argsort (colAt (cdist point query) m)).take K := by
  unfold knnGroupOk
  rw [getD_map_of_lt _ _ (by simpa using hm) 0 [], getD_range_of_lt hm]

/-- Success value of `knn`, index part: per batch and group, the `M × K`
nearest-index map (proved equal to the `Except` recursion below). -/
def knnIdxPure (points queries : T4) (K : ℕ) : Idx4 :=
  List.zipWith (fun pb qb => List.zipWith (fun p q => knnGroupOk p q K) pb qb) points queries

/-- Success value of `knn`, coordinate part: the gathered neighbor
coordinates in index order. -/
def knnValPure (points queries : T4) (K : ℕ) : T5 :=
  List.zipWith (fun pb qb => List.zipWith (fun p q => gatherPts p (knnGroupOk p q K)) pb qb)
    points queries

lemma knnGroup_eq {point query : Mat} {K : ℕ} (hK : K ≤ point.length) :
    knnGroup point query K = Except.ok (knnGroupOk point query K) := by
  unfold knnGroup
  rw [if_pos]
  simpa [cdist] using hK

lemma knnPairs_eq {K : ℕ} : ∀ (ps qs : T3), ps.length = qs.length →
    (∀ p ∈ ps, K ≤ p.length) →
    knnPairs ps qs K = Except.ok
      (List.zipWith (fun p q => gatherPts p (knnGroupOk p q K)) ps qs,
       List.zipWith (fun p q => knnGroupOk p q K) ps qs) := by
  intro ps
  induction ps with
  | nil =>
    intro qs hlen _
    cases qs with
    | nil => rfl
    | cons q qs => simp at hlen
  | cons p ps ih =>
    intro qs hlen hK
    cases qs with
    | nil => simp at hlen
    | cons q qs =>
      have hg : knnGroup p q K = Except.ok (knnGroupOk p q K) :=
        knnGroup_eq (hK p (by simp))
      have hrest := ih qs (by simpa using hlen) (fun p hp => hK p (by simp [hp]))
      simp [knnPairs, hg, hrest]

lemma knn_one_batch_eq {ps qs : T3} {K : ℕ} (hne : ps ≠ [])
    (hlen : ps.length = qs.length) (hK : ∀ p ∈ ps, K ≤ p.length) :
    knn_one_batch ps qs K = Except.ok
      (some (List.zipWith (fun p q => gatherPts p (knnGroupOk p q K)) ps qs),
       some (List.zipWith (fun p q => knnGroupOk p q K) ps qs)) := by
  cases ps with
  | nil => exact absurd rfl hne
  | cons p ps' => simp [knn_one_batch, knnPairs_eq _ _ hlen hK]

lemma knnBatches_eq {K L : ℕ} (hL : 1 ≤ L) : ∀ (ps qs : T4), ps.length = qs.length →
    (∀ pb ∈ ps, pb.length = L) → (∀ qb ∈ qs, qb.length = L) →
    (∀ pb ∈ ps, ∀ p ∈ pb, K ≤ p.length) →
    knnBatches ps qs K = Except.ok (knnValPure ps qs K, knnIdxPure ps qs K) := by
  intro ps
  induction ps with
  | nil =>
    intro qs hlen _ _ _
    cases qs with
    | nil => rfl
    | cons q qs => simp at hlen
  | cons pb ps ih =>
    intro qs hlen hpL hqL hK
    cases qs with
    | nil => simp at hlen
    | cons qb qs =>
      have hne : pb ≠ [] := by
        have := hpL pb (by simp)
        intro hnil
        rw [hnil] at this
        simp at this
        omega
      have hone := @knn_one_batch_eq pb qb K hne
        (by rw [hpL pb (by simp), hqL qb (by simp)]) (fun p hp => hK pb (by simp) p hp)
      have hrest := ih qs (by simpa using hlen) (fun x hx => hpL x (by simp [hx]))
        (fun x hx => hqL x (by simp [hx])) (fun x hx => hK x (by simp [hx]))
      simp [knnBatches, hone, hrest, knnValPure, knnIdxPure]

lemma knn_eq {points queries : T4} {B L N M K : ℕ}
    (hp : Dims4 points B L N 3) (hq : Dims4 queries B L M 3) (hB : 1 ≤ B) (hL : 1 ≤ L)
    (hK : K ≤ N) :
    knn points queries K =
      Except.ok (some (knnValPure points queries K), some (knnIdxPure points queries K)) := by
  obtain ⟨hplen, hpmem⟩ := hp
  obtain ⟨hqlen, hqmem⟩ := hq
  have hbatches := knnBatches_eq (K := K) (L := L) hL points queries
    (by rw [hplen, hqlen]) (fun pb hpb => (hpmem pb hpb).1) (fun qb hqb => (hqmem qb hqb).1)
    (fun pb hpb p hp => by rw [((hpmem pb hpb).2 p hp).1]; exact hK)
  cases points with
  | nil => simp at hplen; omega
  | cons pb ps => simp [knn, hbatches]

lemma knnIdxPure_mat4 {points queries : T4} {B L N M K : ℕ}
    (hp : Dims4 points B L N 3) (hq : Dims4 queries B L M 3)
    {b l : ℕ} (hb : b < B) (hl : l < L) :
    mat4 (knnIdxPure points queries K) b l =
      knnGroupOk (mat4 points b l) (mat4 queries b l) K := by
  obtain ⟨hplen, hpmem⟩ := hp
  obtain ⟨hqlen, hqmem⟩ := hq
  unfold knnIdxPure mat4
  rw [getD_zipWith_of_lt _ (by omega) (by omega) [] [] []]
  have hpb := getD_mem (l := points) (n := b) (by omega) []
  have hqb := getD_mem (l := queries) (n := b) (by omega) []
  rw [getD_zipWith_of_lt _ (by rw [(hpmem _ hpb).1]; omega)
    (by rw [(hqmem _ hqb).1]; omega) [] [] []]

lemma knnValPure_getD {points queries : T4} {B L N M K : ℕ}
    (hp : Dims4 points B L N 3) (hq : Dims4 queries B L M 3)
    {b l : ℕ} (hb : b < B) (hl : l < L) :
    ((knnValPure points queries K).getD b []).getD l [] =
      gatherPts (mat4 points b l) (knnGroupOk (mat4 points b l) (mat4 queries b l) K) := by
  obtain ⟨hplen, hpmem⟩ := hp
  obtain ⟨hqlen, hqmem⟩ := hq
  unfold knnValPure mat4
  rw [getD_zipWith_of_lt _ (by omega) (by omega) [] [] []]
  have hpb := getD_mem (l := points) (n := b) (by omega) []
  have hqb := getD_mem (l := queries) (n := b) (by omega) []
  rw [getD_zipWith_of_lt _ (by rw [(hpmem _ hpb).1]; omega)
    (by rw [(hqmem _ hqb).1]; omega) [] [] []]

/-- C1: for every well-shaped reference set (B × L × N × 3) and query set
(B × L × M × 3) with nonempty batch and group axes and K ≤ N, `knn`
succeeds and, for each (batch, group, query) triple, returns K distinct
in-range reference indices that are exactly a set of K distance-minimal
reference points — every index left out is at least as far from the query
as every index returned — ordered ascending by distance (squared Euclidean
distance `sqDist` represents the Euclidean distance order-faithfully; ties
are broken in the selection's unspecified order), together with the
reference coordinates gathered at those indices in the same order. -/
theorem knn_returns_k_nearest
    {points queries : T4} {B L N M K : ℕ}
    (hp : Dims4 points B L N 3) (hq : Dims4 queries B L M 3)
    (hB : 1 ≤ B) (hL : 1 ≤ L) (hK : K ≤ N) :
    ∃ v ix, knn points queries K = Except.ok (some v, some ix) ∧
      ∀ b < B, ∀ l < L, ∀ m < M,
        (vec4 ix b l m).length = K ∧
        (vec4 ix b l m).Nodup ∧
        (∀ i ∈ vec4 ix b l m, i < N) ∧
        (vec4 ix b l m).Pairwise (fun i j =>
          sqDist (vec4 points b l i) (vec4 queries b l m) ≤
            sqDist (vec4 points b l j) (vec4 queries b l m)) ∧
        (∀ j < N, j ∉ vec4 ix b l m → ∀ i ∈ vec4 ix b l m,
          sqDist (vec4 points b l i) (vec4 queries b l m) ≤
            sqDist (vec4 points b l j) (vec4 queries b l m)) ∧
        (∀ k < K, vec5 v b l m k = vec4 points b l ((vec4 ix b l m).getD k 0)) := by
  refine ⟨knnValPure points queries K, knnIdxPure points queries K,
    knn_eq hp hq hB hL hK, ?_⟩
  intro b hb l hl m hm
  have hpmat : Dims2 (mat4 points b l) N 3 := dims4_mat4 hp hb hl
  have hqmat : Dims2 (mat4 queries b l) M 3 := dims4_mat4 hq hb hl
  have hmq : m < (mat4 queries b l).length := by rw [hqmat.1]; omega
  have hrow : vec4 (knnIdxPure points queries K) b l m =
      (argsort (colAt (cdist (mat4 points b l) (mat4 queries b l)) m)).take K := by
    have h1 : vec4 (knnIdxPure points queries K) b l m =
        (knnGroupOk (mat4 points b l) (mat4 queries b l) K).getD m [] := by
      show (mat4 (knnIdxPure points queries K) b l).getD m [] = _
      rw [knnIdxPure_mat4 hp hq hb hl]
    rw [h1, knnGroupOk_getD K hmq]
  have hcolLen : (colAt (cdist (mat4 points b l) (mat4 queries b l)) m).length = N := by
    rw [colAt_cdist_length, hpmat.1]
  have hcol : ∀ i, i < N →
      (colAt (cdist (mat4 points b l) (mat4 queries b l)) m).getD i 0 =
        sqDist (vec4 points b l i) (vec4 queries b l m) := by
    intro i hi
    exact colAt_cdist_getD hmq (by rw [hpmat.1]; omega)
  have hKcol : K ≤ (colAt (cdist (mat4 points b l) (mat4 queries b l)) m).length := by
    rw [hcolLen]; exact hK
  refine ⟨?_, ?_, ?_, ?_, ?_, ?_⟩
  · rw [hrow]; exact topk_length _ hKcol
  · rw [hrow]; exact topk_nodup _ _
  · rw [hrow]
    intro i hi
    have h := topk_mem_lt _ _ hi
    rwa [hcolLen] at h
  · rw [hrow]
    refine List.Pairwise.imp_of_mem ?_ (topk_sorted _ K)
    intro i j hi hj hij
    have hiN : i < N := by have h := topk_mem_lt _ _ hi; rwa [hcolLen] at h
    have hjN : j < N := by have h := topk_mem_lt _ _ hj; rwa [hcolLen] at h
    rwa [hcol i hiN, hcol j hjN] at hij
  · rw [hrow]
    intro j hj hnot i hi
    have h := topk_min _ K (by rw [hcolLen]; exact hj) hnot hi
    have hiN : i < N := by have h2 := topk_mem_lt _ _ hi; rwa [hcolLen] at h2
    rwa [hcol i hiN, hcol j hj] at h
  · intro k hk
    have hvm : vec5 (knnValPure points queries K) b l m k =
        ((gatherPts (mat4 points b l)
          (knnGroupOk (mat4 points b l) (mat4 queries b l) K)).getD m []).getD k [] := by
      show ((((knnValPure points queries K).getD b []).getD l []).getD m []).getD k [] = _
      rw [knnValPure_getD hp hq hb hl]
    have hglen : (knnGroupOk (mat4 points b l) (mat4 queries b l) K).length = M := by
      rw [knnGroupOk_length, hqmat.1]
    have hgm : (gatherPts (mat4 points b l)
          (knnGroupOk (mat4 points b l) (mat4 queries b l) K)).getD m [] =
        ((knnGroupOk (mat4 points b l) (mat4 queries b l) K).getD m []).map
          (fun i => (mat4 points b l).getD i []) := by
      unfold gatherPts
      exact getD_map_of_lt _ _ (by rw [hglen]; omega) [] []
    have hlenrow :
        ((argsort (colAt (cdist (mat4 points b l) (mat4 queries b l)) m)).take K).length = K :=
      topk_length _ hKcol
    rw [hvm, hgm, knnGroupOk_getD K hmq,
      getD_map_of_lt _ _ (by rw [hlenrow]; omega) 0 [], hrow]
    rfl

/-- Witness for C1 at the spec's §8 example: three collinear reference
points, one query at the origin, K = 2. -/
theorem knn_returns_k_nearest_witness :
    ∃ v ix,
      knn [[[[0,0,0],[1,0,0],[5,0,0]]]] [[[[0,0,0]]]] 2 = Except.ok (some v, some ix) ∧
      ∀ b < 1, ∀ l < 1, ∀ m < 1,
        (vec4 ix b l m).length = 2 ∧
        (vec4 ix b l m).Nodup ∧
        (∀ i ∈ vec4 ix b l m, i < 3) ∧
        (vec4 ix b l m).Pairwise (fun i j =>
          sqDist (vec4 [[[[0,0,0],[1,0,0],[5,0,0]]]] b l i) (vec4 [[[[0,0,0]]]] b l m) ≤
            sqDist (vec4 [[[[0,0,0],[1,0,0],[5,0,0]]]] b l j) (vec4 [[[[0,0,0]]]] b l m)) ∧
        (∀ j < 3, j ∉ vec4 ix b l m → ∀ i ∈ vec4 ix b l m,
          sqDist (vec4 [[[[0,0,0],[1,0,0],[5,0,0]]]] b l i) (vec4 [[[[0,0,0]]]] b l m) ≤
            sqDist (vec4 [[[[0,0,0],[1,0,0],[5,0,0]]]] b l j) (vec4 [[[[0,0,0]]]] b l m)) ∧
        (∀ k < 2, vec5 v b l m k =
          vec4 [[[[0,0,0],[1,0,0],[5,0,0]]]] b l ((vec4 ix b l m).getD k 0)) :=
  knn_returns_k_nearest (by decide) (by decide) (by decide) (by decide) (by decide)

lemma knnGroup_err {point query : Mat} {K : ℕ} (hK : point.length < K) :
    knnGroup point query K = Except.error "selected index k out of range" := by
  unfold knnGroup
  have hlen : (cdist point query).length = point.length := by simp [cdist]
  rw [if_neg]
  omega

/-- C5: when the requested neighbor count exceeds the number of reference
points per group, the top-K selection inside `knn` raises the underlying
selection primitive's runtime error (no silent truncation). -/
theorem knn_insufficient_neighbors {points queries : T4} {B L N M K : ℕ}
    (hp : Dims4 points B L N 3) (hq : Dims4 queries B L M 3)
    (hB : 1 ≤ B) (hL : 1 ≤ L) (hKN : N < K) :
    knn points queries K = Except.error "selected index k out of range" := by
  obtain ⟨hplen, hpmem⟩ := hp
  obtain ⟨hqlen, hqmem⟩ := hq
  cases points with
  | nil => exfalso; simp at hplen; omega
  | cons pb ps =>
    cases queries with
    | nil => exfalso; simp at hqlen; omega
    | cons qb qs =>
      obtain ⟨hpbL, hpbmem⟩ := hpmem pb (by simp)
      obtain ⟨hqbL, hqbmem⟩ := hqmem qb (by simp)
      cases pb with
      | nil => exfalso; simp at hpbL; omega
      | cons p ps2 =>
        cases qb with
        | nil => exfalso; simp at hqbL; omega
        | cons q qs2 =>
          have hg : knnGroup p q K = Except.error "selected index k out of range" := by
            apply knnGroup_err
            rw [(hpbmem p (by simp)).1]
            omega
          simp [knn, knnBatches, knn_one_batch, knnPairs, hg]

/-- Witness for C5: one reference point per group, K = 2. -/
theorem knn_insufficient_neighbors_witness :
    knn [[[[0,0,0]]]] [[[[0,0,0]]]] 2 = Except.error "selected index k out of range" :=
  knn_insufficient_neighbors (B := 1) (L := 1) (N := 1) (M := 1) (by decide) (by decide)
    (by decide) (by decide) (by decide)

/-- C9: with an empty leading batch axis the loop bodies never run, the
`None` accumulators are never replaced, and `knn` returns `(None, None)`
while `gather_feature` returns `None` — not empty tensors. -/
theorem knn_gather_empty_batch (queries : T4) (K : ℕ) (idx : Idx4) :
    knn [] queries K = Except.ok (none, none) ∧
    gather_feature [] idx = Except.ok none :=
  ⟨rfl, rfl⟩

/-- C2 (recording the code's actual behavior): `ShellConv.__init__` has no
divisibility check — with neighbor = 32 and division = 5 it silently
truncates `S = int(32/5) = 6` and construction proceeds, although
32 mod 5 ≠ 0; no configuration error is raised. -/
theorem shellconv_init_accepts_indivisible (lp : LiftParams) (bn : Vec × Vec)
    (cw : T3) (cb : Vec) :
    (ShellConv.init 256 128 32 5 true lp bn cw cb).S = 6 ∧ 32 % 5 ≠ 0 :=
  ⟨rfl, by decide⟩

/-- Success value of `gather_feature`: per batch and group, the pure
indexed lookup (proved equal to the `Except` recursion below). -/
def gatherPure (feat : T4) (idx : Idx4) : T5 :=
  List.zipWith (fun pf2 ix3 => List.zipWith gatherGroup pf2 ix3) feat idx

lemma gatherBatchGo_eq : ∀ {pfs : T3} {ixs : Idx3}, pfs.length ≤ ixs.length →
    gatherBatchGo pfs ixs = Except.ok (List.zipWith gatherGroup pfs ixs) := by
  intro pfs
  induction pfs with
  | nil =>
    intro ixs _
    cases ixs <;> rfl
  | cons pf pfs ih =>
    intro ixs hlen
    cases ixs with
    | nil => simp at hlen
    | cons ix ixs => simp [gatherBatchGo, ih (by simpa using hlen)]

lemma gatherBatches_eq {L : ℕ} (hL : 1 ≤ L) : ∀ (feat : T4) (idx : Idx4),
    feat.length ≤ idx.length → (∀ pf2 ∈ feat, pf2.length = L) →
    (∀ ix3 ∈ idx, ix3.length = L) →
    gatherBatches feat idx = Except.ok (gatherPure feat idx) := by
  intro feat
  induction feat with
  | nil =>
    intro idx _ _ _
    cases idx <;> rfl
  | cons pf2 feat ih =>
    intro idx hlen hfL hiL
    cases idx with
    | nil => simp at hlen
    | cons ix3 idx =>
      obtain ⟨pf, pfs, rfl⟩ : ∃ h t, pf2 = h :: t := by
        cases pf2 with
        | nil =>
          have h := hfL [] (by simp)
          simp at h
          omega
        | cons h t => exact ⟨h, t, rfl⟩
      have hgo : gatherBatchGo (pf :: pfs) ix3 =
          Except.ok (List.zipWith gatherGroup (pf :: pfs) ix3) := by
        apply gatherBatchGo_eq
        rw [hfL (pf :: pfs) (by simp), hiL ix3 (by simp)]
      simp [gatherBatches, hgo, ih idx (by simpa using hlen)
        (fun x hx => hfL x (by simp [hx])) (fun x hx => hiL x (by simp [hx])), gatherPure]

lemma gather_feature_eq {feat : T4} {idx : Idx4} {B L N F M K : ℕ}
    (hf : Dims4 feat B L N F) (hi : Dims4 idx B L M K) (hB : 1 ≤ B) (hL : 1 ≤ L) :
    gather_feature feat idx = Except.ok (some (gatherPure feat idx)) := by
  obtain ⟨hflen, hfmem⟩ := hf
  obtain ⟨hilen, himem⟩ := hi
  have hbatches := gatherBatches_eq hL feat idx
    (by rw [hflen, hilen]) (fun pf2 h => (hfmem pf2 h).1) (fun ix3 h => (himem ix3 h).1)
  cases feat with
  | nil => simp at hflen; omega
  | cons pf2 feat2 => simp [gather_feature, hbatches]

lemma gatherRow_dims {pf : Mat} {row : List ℕ} {N F Kk : ℕ}
    (hpf : Dims2 pf N F) (hrow : row.length = Kk) (hb : ∀ i ∈ row, i < N) :
    Dims2 (gatherRow pf row) Kk F := by
  refine ⟨by simp [gatherRow, hrow], ?_⟩
  intro y hy
  simp only [gatherRow, List.mem_map] at hy
  obtain ⟨i, hi, rfl⟩ := hy
  exact hpf.2 _ (getD_mem (by rw [hpf.1]; exact hb i hi) [])

lemma gatherGroup_dims {pf : Mat} {ix2 : Idx2} {N F M K : ℕ}
    (hpf : Dims2 pf N F) (hix : Dims2 ix2 M K) (hb : ∀ row ∈ ix2, ∀ i ∈ row, i < N) :
    Dims3 (gatherGroup pf ix2) M K F := by
  refine ⟨by simp [gatherGroup, hix.1], ?_⟩
  intro y hy
  simp only [gatherGroup, List.mem_map] at hy
  obtain ⟨row, hrow, rfl⟩ := hy
  exact gatherRow_dims hpf (hix.2 row hrow) (hb row hrow)

lemma gatherPure_dims {feat : T4} {idx : Idx4} {B L N F M K : ℕ}
    (hf : Dims4 feat B L N F) (hi : Dims4 idx B L M K)
    (hbound : Forall4 (fun i => i < N) idx) :
    Dims5 (gatherPure feat idx) B L M K F := by
  refine ⟨by simp [gatherPure, List.length_zipWith, hf.1, hi.1], ?_⟩
  intro y hy
  obtain ⟨pf2, hpf2, ix3, hix3, rfl⟩ := mem_zipWith hy
  refine ⟨by simp [List.length_zipWith, (hf.2 pf2 hpf2).1, (hi.2 ix3 hix3).1], ?_⟩
  intro z hz
  obtain ⟨pf, hpf, ix2, hix2, rfl⟩ := mem_zipWith hz
  exact gatherGroup_dims ((hf.2 pf2 hpf2).2 pf hpf) ((hi.2 ix3 hix3).2 ix2 hix2)
    (fun row hrow i hi2 => hbound ix3 hix3 ix2 hix2 row hrow i hi2)

lemma gatherPure_vec {feat : T4} {idx : Idx4} {B L N F M K : ℕ}
    (hf : Dims4 feat B L N F) (hi : Dims4 idx B L M K)
    {b l m k : ℕ} (hb : b < B) (hl : l < L) (hm : m < M) (hk : k < K) :
    vec5 (gatherPure feat idx) b l m k =
      (mat4 feat b l).getD ((vec4 idx b l m).getD k 0) [] := by
  obtain ⟨hflen, hfmem⟩ := hf
  obtain ⟨hilen, himem⟩ := hi
  have hixdims : Dims2 (mat4 idx b l) M K := dims4_mat4 ⟨hilen, himem⟩ hb hl
  have h1 : ((gatherPure feat idx).getD b []).getD l [] =
      gatherGroup (mat4 feat b l) (mat4 idx b l) := by
    unfold gatherPure mat4
    rw [getD_zipWith_of_lt _ (by omega) (by omega) [] [] []]
    have hfb := getD_mem (l := feat) (n := b) (by omega) []
    have hib := getD_mem (l := idx) (n := b) (by omega) []
    rw [getD_zipWith_of_lt _ (by rw [(hfmem _ hfb).1]; omega)
      (by rw [(himem _ hib).1]; omega) [] [] []]
  have h2 : vec5 (gatherPure feat idx) b l m k =
      ((gatherGroup (mat4 feat b l) (mat4 idx b l)).getD m []).getD k [] := by
    unfold vec5
    rw [h1]
  rw [h2]
  have hgm : (gatherGroup (mat4 feat b l) (mat4 idx b l)).getD m [] =
      gatherRow (mat4 feat b l) ((mat4 idx b l).getD m []) := by
    unfold gatherGroup
    exact getD_map_of_lt _ _ (by rw [hixdims.1]; omega) [] []
  rw [hgm]
  unfold gatherRow
  rw [getD_map_of_lt _ _
    (by rw [hixdims.2 _ (getD_mem (by rw [hixdims.1]; omega) [])]; omega) 0 []]
  rfl

/-- C3: for well-shaped inputs with in-range indices (and nonempty batch
and group axes, where the source code returns a tensor at all),
`gather_feature` returns a `B × L × M × K × F` tensor whose entry at
(b, l, m, k) is exactly the previous-layer feature vector at
(b, l, index_map[b][l][m][k]) — a pure lookup preserving index order. -/
theorem gather_feature_exact {feat : T4} {idx : Idx4} {B L N F M K : ℕ}
    (hf : Dims4 feat B L N F) (hi : Dims4 idx B L M K) (hB : 1 ≤ B) (hL : 1 ≤ L)
    (hbound : Forall4 (fun i => i < N) idx) :
    ∃ g, gather_feature feat idx = Except.ok (some g) ∧
      Dims5 g B L M K F ∧
      ∀ b < B, ∀ l < L, ∀ m < M, ∀ k < K,
        vec5 g b l m k = (mat4 feat b l).getD ((vec4 idx b l m).getD k 0) [] := by
  refine ⟨gatherPure feat idx, gather_feature_eq hf hi hB hL,
    gatherPure_dims hf hi hbound, ?_⟩
  intro b hb l hl m hm k hk
  exact gatherPure_vec hf hi hb hl hm hk

/-- Witness for C3: two feature vectors, one query with neighbor order
reversed by the index map. -/
theorem gather_feature_exact_witness :
    ∃ g, gather_feature [[[[1],[2]]]] [[[[1,0]]]] = Except.ok (some g) ∧
      Dims5 g 1 1 1 2 1 ∧
      ∀ b < 1, ∀ l < 1, ∀ m < 1, ∀ k < 2,
        vec5 g b l m k =
          (mat4 [[[[(1:ℚ)],[2]]]] b l).getD ((vec4 [[[[1,0]]]] b l m).getD k 0) [] :=
  gather_feature_exact (N := 2) (by decide) (by decide) (by decide) (by decide) (by decide)

lemma le_foldl_max : ∀ (l : Vec) (a : ℚ), a ≤ l.foldl max a
  | [], _ => le_refl _
  | x :: l, a => le_trans (le_max_left a x) (le_foldl_max l (max a x))

lemma mem_le_foldl_max : ∀ (l : Vec) (a : ℚ) {x : ℚ}, x ∈ l → x ≤ l.foldl max a
  | y :: l, a, x, h => by
    rcases List.mem_cons.mp h with rfl | h
    · exact le_trans (le_max_right a x) (le_foldl_max l (max a x))
    · exact mem_le_foldl_max l (max a y) h

lemma foldl_max_mem : ∀ (l : Vec) (a : ℚ), l.foldl max a = a ∨ l.foldl max a ∈ l
  | [], _ => Or.inl rfl
  | x :: l, a => by
    rcases foldl_max_mem l (max a x) with h | h
    · rcases max_choice a x with hm | hm
      · left; rw [List.foldl_cons, h, hm]
      · right; rw [List.foldl_cons, h, hm]; simp
    · right; exact List.mem_cons_of_mem _ h

lemma foldl_zipWith_max_length : ∀ (rows : Mat) (acc : Vec) {C : ℕ}, acc.length = C →
    (∀ r ∈ rows, r.length = C) →
    (rows.foldl (fun a row => List.zipWith max a row) acc).length = C
  | [], _, _, hacc, _ => hacc
  | r :: rs, acc, C, hacc, hrows => by
    apply foldl_zipWith_max_length rs
    · rw [List.length_zipWith, hacc, hrows r (by simp)]
      exact min_self C
    · intro r2 h2
      exact hrows r2 (by simp [h2])

lemma windowMax_length {rows : Mat} {C : ℕ} (hne : rows ≠ [])
    (hrows : ∀ r ∈ rows, r.length = C) : (windowMax rows).length = C := by
  cases rows with
  | nil => exact absurd rfl hne
  | cons r rs =>
    exact foldl_zipWith_max_length rs r (hrows r (by simp)) (fun r2 h2 => hrows r2 (by simp [h2]))

lemma foldl_zipWith_max_getD : ∀ (rows : Mat) (acc : Vec) {C c : ℕ}, c < C →
    acc.length = C → (∀ r ∈ rows, r.length = C) →
    (rows.foldl (fun a row => List.zipWith max a row) acc).getD c 0 =
      rows.foldl (fun v row => max v (row.getD c 0)) (acc.getD c 0)
  | [], _, _, _, _, _, _ => rfl
  | r :: rs, acc, C, c, hc, hacc, hrows => by
    rw [List.foldl_cons, List.foldl_cons,
      foldl_zipWith_max_getD rs _ hc
        (by rw [List.length_zipWith, hacc, hrows r (by simp)]; exact min_self C)
        (fun r2 h2 => hrows r2 (by simp [h2])),
      getD_zipWith_of_lt max (by omega) (by rw [hrows r (by simp)]; omega) 0 0 0]

lemma foldl_max_getD_eq (rs : Mat) (a : ℚ) (c : ℕ) :
    rs.foldl (fun v row => max v (row.getD c 0)) a =
      (rs.map (fun row => row.getD c 0)).foldl max a :=
  (List.foldl_map (fun row => row.getD c 0) max rs a).symm

lemma windowMax_getD_ge {rows : Mat} {C c : ℕ} (hc : c < C)
    (hrows : ∀ r ∈ rows, r.length = C) {r : Vec} (hr : r ∈ rows) :
    r.getD c 0 ≤ (windowMax rows).getD c 0 := by
  cases rows with
  | nil => simp at hr
  | cons r0 rs =>
    rw [windowMax, foldl_zipWith_max_getD rs r0 hc (hrows r0 (by simp))
      (fun r2 h2 => hrows r2 (by simp [h2])), foldl_max_getD_eq]
    rcases List.mem_cons.mp hr with rfl | hmem
    · exact le_foldl_max _ _
    · exact mem_le_foldl_max _ _ (List.mem_map_of_mem _ hmem)

lemma windowMax_getD_mem {rows : Mat} {C c : ℕ} (hc : c < C)
    (hrows : ∀ r ∈ rows, r.length = C) (hne : rows ≠ []) :
    ∃ r ∈ rows, (windowMax rows).getD c 0 = r.getD c 0 := by
  cases rows with
  | nil => exact absurd rfl hne
  | cons r0 rs =>
    rw [windowMax, foldl_zipWith_max_getD rs r0 hc (hrows r0 (by simp))
      (fun r2 h2 => hrows r2 (by simp [h2])), foldl_max_getD_eq]
    rcases foldl_max_mem (rs.map (fun row => row.getD c 0)) (r0.getD c 0) with h | h
    · exact ⟨r0, by simp, h⟩
    · obtain ⟨r, hrmem, hval⟩ := List.mem_map.mp h
      exact ⟨r, by simp [hrmem], hval.symm⟩

lemma window_length {mat : Mat} {S K d j : ℕ} (hmat : mat.length = K) (hK : K = S * d)
    (hj : j < d) : ((mat.drop (j * S)).take S).length = S := by
  have h1 : j * S + S ≤ S * d := by
    calc j * S + S = (j + 1) * S := by ring
      _ ≤ d * S := Nat.mul_le_mul_right S (by omega)
      _ = S * d := by ring
  rw [List.length_take, List.length_drop, hmat, hK]
  omega

lemma window_getD {mat : Mat} {S j t : ℕ}
    (ht : t < ((mat.drop (j * S)).take S).length) :
    ((mat.drop (j * S)).take S).getD t [] = mat.getD (j * S + t) [] := by
  have h1 : t < (mat.drop (j * S)).length :=
    lt_of_lt_of_le ht (by rw [List.length_take]; exact Nat.min_le_right _ _)
  have h2 : j * S + t < mat.length := by
    rw [List.length_drop] at h1
    omega
  rw [List.getD_eq_getElem _ [] ht, List.getElem_take, List.getElem_drop,
    List.getD_eq_getElem _ [] h2]

lemma dims5_dims2 {α : Type} {x : List (List (List (List (List α))))} {B L M K C b l m : ℕ}
    (hx : Dims5 x B L M K C) (hb : b < B) (hl : l < L) (hm : m < M) :
    Dims2 (((x.getD b []).getD l []).getD m []) K C := by
  obtain ⟨hlen, hmem⟩ := hx
  obtain ⟨h1, h2⟩ := hmem _ (getD_mem (n := b) (by omega) [])
  obtain ⟨h3, h4⟩ := h2 _ (getD_mem (n := l) (by omega) [])
  exact h4 _ (getD_mem (n := m) (by omega) [])

lemma map3_getD {γ δ : Type} (f : γ → δ) {x : List (List (List γ))} {b l m : ℕ}
    (hb : b < x.length) (hl : l < (x.getD b []).length)
    (hm : m < ((x.getD b []).getD l []).length) (dγ : γ) (dδ : δ) :
    (((x.map (fun a => a.map (fun t => t.map f))).getD b []).getD l []).getD m dδ =
      f (((x.getD b []).getD l []).getD m dγ) := by
  rw [getD_map_of_lt _ _ hb [] [], getD_map_of_lt _ _ hl [] [], getD_map_of_lt _ _ hm dγ dδ]

lemma maxPool_dims {x : T5} {B L M K C S d : ℕ}
    (hx : Dims5 x B L M K C) (hK : K = S * d) (hS : 1 ≤ S) :
    Dims5 (maxPoolNeighbor S x) B L M d C := by
  obtain ⟨hlen, hmem⟩ := hx
  refine ⟨by simp [maxPoolNeighbor, hlen], ?_⟩
  intro a ha
  simp only [maxPoolNeighbor, List.mem_map] at ha
  obtain ⟨a0, ha0, rfl⟩ := ha
  obtain ⟨ha0len, ha0mem⟩ := hmem a0 ha0
  refine ⟨by simp [ha0len], ?_⟩
  intro b hb
  simp only [List.mem_map] at hb
  obtain ⟨b0, hb0, rfl⟩ := hb
  obtain ⟨hb0len, hb0mem⟩ := ha0mem b0 hb0
  refine ⟨by simp [hb0len], ?_⟩
  intro t ht
  simp only [List.mem_map] at ht
  obtain ⟨mat, hmat, rfl⟩ := ht
  obtain ⟨hmatlen, hmatmem⟩ := hb0mem mat hmat
  constructor
  · rw [List.length_map, List.length_range, hmatlen, hK]
    exact Nat.mul_div_cancel_left d (by omega)
  · intro row hrow
    simp only [List.mem_map, List.mem_range] at hrow
    obtain ⟨j, hj, rfl⟩ := hrow
    have hjd : j < d := by
      rw [hmatlen, hK, Nat.mul_div_cancel_left d (by omega)] at hj
      exact hj
    have hwlen : ((mat.drop (j * S)).take S).length = S := window_length hmatlen hK hjd
    apply windowMax_length
    · intro hnil
      rw [hnil] at hwlen
      simp at hwlen
      omega
    · intro r hr
      exact hmatmem r (List.mem_of_mem_drop (List.mem_of_mem_take hr))

/-- C4: the shell pooling step (`nn.MaxPool3d((1,S,1), stride=(1,S,1))`)
on a `B × L × M × K × C` tensor whose neighbor axis has K = S · division
entries partitions that axis into `division` contiguous shells of S
neighbors each and outputs, for shell j and channel c, the element-wise
maximum over neighbor positions [j·S, j·S + S) — the output dominates
every entry of its shell and is attained at one of them — reducing the
neighbor axis from K to `division`. -/
theorem shell_pooling_max {x : T5} {B L M K C S d : ℕ}
    (hx : Dims5 x B L M K C) (hK : K = S * d) (hS : 1 ≤ S) :
    Dims5 (maxPoolNeighbor S x) B L M d C ∧
    ∀ b < B, ∀ l < L, ∀ m < M, ∀ j < d, ∀ c < C,
      (∀ k, j * S ≤ k → k < j * S + S →
        ent5 x b l m k c ≤ ent5 (maxPoolNeighbor S x) b l m j c) ∧
      (∃ k, j * S ≤ k ∧ k < j * S + S ∧
        ent5 (maxPoolNeighbor S x) b l m j c = ent5 x b l m k c) := by
  refine ⟨maxPool_dims hx hK hS, ?_⟩
  intro b hb l hl m hm j hj c hc
  have hmat : Dims2 (((x.getD b []).getD l []).getD m []) K C := dims5_dims2 hx hb hl hm
  obtain ⟨hxlen, hxmem⟩ := hx
  have hbx : b < x.length := by omega
  have h1 : Dims4 (x.getD b []) L M K C := hxmem _ (getD_mem hbx [])
  have hlx : l < (x.getD b []).length := by rw [h1.1]; omega
  have h2 : Dims3 ((x.getD b []).getD l []) M K C := h1.2 _ (getD_mem hlx [])
  have hmx : m < ((x.getD b []).getD l []).length := by rw [h2.1]; omega
  have hmp : (((maxPoolNeighbor S x).getD b []).getD l []).getD m [] =
      (List.range ((((x.getD b []).getD l []).getD m []).length / S)).map
        (fun j2 => windowMax (((((x.getD b []).getD l []).getD m []).drop (j2 * S)).take S)) := by
    unfold maxPoolNeighbor
    exact map3_getD _ hbx hlx hmx [] []
  have hds : (((x.getD b []).getD l []).getD m []).length / S = d := by
    rw [hmat.1, hK, Nat.mul_div_cancel_left d (by omega)]
  have hjlen : j <
      (List.range ((((x.getD b []).getD l []).getD m []).length / S)).length := by
    rw [List.length_range, hds]
    omega
  have hmpj : ent5 (maxPoolNeighbor S x) b l m j c =
      (windowMax (((((x.getD b []).getD l []).getD m []).drop (j * S)).take S)).getD c 0 := by
    show ((((((maxPoolNeighbor S x).getD b []).getD l []).getD m []).getD j []).getD c 0) = _
    rw [hmp, getD_map_of_lt _ _ hjlen 0 [], getD_range_of_lt (by rw [hds]; omega) 0]
  have hwlen : (((((x.getD b []).getD l []).getD m []).drop (j * S)).take S).length = S :=
    window_length hmat.1 hK hj
  have hwrows : ∀ r ∈ ((((x.getD b []).getD l []).getD m []).drop (j * S)).take S,
      r.length = C := by
    intro r hr
    exact hmat.2 r (List.mem_of_mem_drop (List.mem_of_mem_take hr))
  have hne : ((((x.getD b []).getD l []).getD m []).drop (j * S)).take S ≠ [] := by
    intro hnil
    rw [hnil] at hwlen
    simp at hwlen
    omega
  constructor
  · intro k hk1 hk2
    have hkmat : (((x.getD b []).getD l []).getD m []).getD k [] =
        (((((x.getD b []).getD l []).getD m []).drop (j * S)).take S).getD (k - j * S) [] := by
      rw [window_getD (t := k - j * S) (by rw [hwlen]; omega)]
      congr 1
      omega
    have hmem2 : (((((x.getD b []).getD l []).getD m []).drop (j * S)).take S).getD
        (k - j * S) [] ∈ ((((x.getD b []).getD l []).getD m []).drop (j * S)).take S :=
      getD_mem (by rw [hwlen]; omega) []
    have hge := windowMax_getD_ge hc hwrows hmem2
    rw [hmpj]
    show ((((x.getD b []).getD l []).getD m []).getD k []).getD c 0 ≤ _
    rw [hkmat]
    exact hge
  · obtain ⟨r, hrmem, hval⟩ := windowMax_getD_mem hc hwrows hne
    obtain ⟨t, htlt, hteq⟩ := List.mem_iff_getElem.mp hrmem
    refine ⟨j * S + t, by omega, by rw [hwlen] at htlt; omega, ?_⟩
    rw [hmpj, hval, ← hteq,
      ← List.getD_eq_getElem (((((x.getD b []).getD l []).getD m []).drop (j * S)).take S)
        [] htlt,
      window_getD htlt]
    rfl

/-- Witness for C4: K = 4 neighbors, two shells of S = 2, one channel. -/
theorem shell_pooling_max_witness :
    Dims5 (maxPoolNeighbor 2 [[[[[1],[2],[3],[4]]]]]) 1 1 1 2 1 ∧
    ∀ b < 1, ∀ l < 1, ∀ m < 1, ∀ j < 2, ∀ c < 1,
      (∀ k, j * 2 ≤ k → k < j * 2 + 2 →
        ent5 [[[[[1],[2],[3],[4]]]]] b l m k c ≤
          ent5 (maxPoolNeighbor 2 [[[[[1],[2],[3],[4]]]]]) b l m j c) ∧
      (∃ k, j * 2 ≤ k ∧ k < j * 2 + 2 ∧
        ent5 (maxPoolNeighbor 2 [[[[[1],[2],[3],[4]]]]]) b l m j c =
          ent5 [[[[[1],[2],[3],[4]]]]] b l m k c) :=
  shell_pooling_max (K := 4) (by decide) (by decide) (by decide)

lemma forall5_map5_relu (x : T5) : Forall5 (fun v => 0 ≤ v) (map5 relu x) := by
  intro a ha b hb c hc d hd e he
  simp only [map5, mapVec4, List.mem_map] at ha
  obtain ⟨a0, _, rfl⟩ := ha
  simp only [List.mem_map] at hb
  obtain ⟨b0, _, rfl⟩ := hb
  simp only [List.mem_map] at hc
  obtain ⟨c0, _, rfl⟩ := hc
  simp only [List.mem_map] at hd
  obtain ⟨d0, _, rfl⟩ := hd
  simp only [List.mem_map] at he
  obtain ⟨e0, _, rfl⟩ := he
  exact le_max_right e0 0

/-- C10: whichever normalization branch is taken, the last operation of
`Lift.forward` on every path is the rectified-linear unit, so every entry
of the lifted local point feature tensor is nonnegative. -/
theorem lift_output_nonneg (sq : ℚ → ℚ) (p : LiftParams) (x : T5) :
    Forall5 (fun v => 0 ≤ v) (Lift.forward sq p x) := by
  unfold Lift.forward
  split
  · exact forall5_map5_relu _
  · exact forall5_map5_relu _

/-- C7: `ShellConv.forward` is a pure function of the parameter container
and the input tensors — the embedding threads no other state (the only
mutable state in the source, the batch-norm running statistics, never
influences a training-mode output) — so two invocations on equal inputs
under equal parameters return identical outputs. -/
theorem shellconv_forward_deterministic (sq : ℚ → ℚ) (sc : ShellConvParams)
    (p1 q1 : T4) (f1 : Option T4) (p2 q2 : T4) (f2 : Option T4)
    (hp : p1 = p2) (hq : q1 = q2) (hf : f1 = f2) :
    ShellConv.forward sq sc p1 q1 f1 = ShellConv.forward sq sc p2 q2 f2 := by
  rw [hp, hq, hf]

/-- Witness for C7 at a concrete parameter container and input pair. -/
theorem shellconv_forward_deterministic_witness :
    ShellConv.forward (fun v => v)
      ⟨256, 128, 32, 8, 4, ⟨true, [], [], [], [], [], [], [], []⟩, none, [], []⟩
      [[[[1,0,0]]]] [[[[0,0,0]]]] none =
    ShellConv.forward (fun v => v)
      ⟨256, 128, 32, 8, 4, ⟨true, [], [], [], [], [], [], [], []⟩, none, [], []⟩
      [[[[1,0,0]]]] [[[[0,0,0]]]] none :=
  shellconv_forward_deterministic _ _ _ _ _ _ _ _ rfl rfl rfl

/-- C8: `ShellConv.__init__` constructs its `Lift` as `Lift(3, 64)`,
leaving the `Lift` normalization flag at its default `True` whatever the
`ShellConv` flag is, so the forward pass with `is_batchnorm=False` still
runs the batch-normalized branch inside `Lift`; the flag only removes the
`BatchNorm3d` preceding the final projection convolution. -/
theorem shellconv_lift_keeps_batchnorm (out prev nb div : ℕ) (flag : Bool)
    (lp : LiftParams) (bn : Vec × Vec) (cw : T3) (cb : Vec) :
    (ShellConv.init out prev nb div flag lp bn cw cb).lift.is_batchnorm = true ∧
    (ShellConv.init out prev nb div false lp bn cw cb).conv_bn = none ∧
    (ShellConv.init out prev nb div true lp bn cw cb).conv_bn = some bn ∧
    ∀ sq x, Lift.forward sq (ShellConv.init out prev nb div flag lp bn cw cb).lift x =
      map5 relu (mapVec4 (linear lp.w2 lp.b2)
        (batchNorm3d sq lp.bn2g lp.bn2b
          (map5 relu (mapVec4 (linear lp.w1 lp.b1)
            (batchNorm3d sq lp.bn1g lp.bn1b x))))) :=
  ⟨rfl, rfl, rfl, fun _ _ => rfl⟩

lemma knnGroupOk_dims {point query : Mat} {N M K : ℕ}
    (hp : point.length = N) (hq : query.length = M) (hK : K ≤ N) :
    Dims2 (knnGroupOk point query K) M K ∧
    ∀ row ∈ knnGroupOk point query K, ∀ i ∈ row, i < N := by
  refine ⟨⟨by simp [knnGroupOk, hq], ?_⟩, ?_⟩
  · intro row hrow
    simp only [knnGroupOk, List.mem_map, List.mem_range] at hrow
    obtain ⟨j, hj, rfl⟩ := hrow
    exact topk_length _ (by rw [colAt_cdist_length, hp]; exact hK)
  · intro row hrow
    simp only [knnGroupOk, List.mem_map, List.mem_range] at hrow
    obtain ⟨j, hj, rfl⟩ := hrow
    intro i hi
    have h := topk_mem_lt _ _ hi
    rwa [colAt_cdist_length, hp] at h

lemma gatherPts_dims {point : Mat} {idxs : Idx2} {N M K : ℕ}
    (hp : Dims2 point N 3) (hidx : Dims2 idxs M K)
    (hb : ∀ row ∈ idxs, ∀ i ∈ row, i < N) :
    Dims3 (gatherPts point idxs) M K 3 := by
  refine ⟨by simp [gatherPts, hidx.1], ?_⟩
  intro y hy
  simp only [gatherPts, List.mem_map] at hy
  obtain ⟨row, hrow, rfl⟩ := hy
  refine ⟨by simp [hidx.2 row hrow], ?_⟩
  intro v hv
  simp only [List.mem_map] at hv
  obtain ⟨i, hi, rfl⟩ := hv
  exact hp.2 _ (getD_mem (by rw [hp.1]; exact hb row hrow i hi) [])

lemma knn_shape {points queries : T4} {B L N M K : ℕ}
    (hp : Dims4 points B L N 3) (hq : Dims4 queries B L M 3) (hK : K ≤ N) :
    Dims5 (knnValPure points queries K) B L M K 3 ∧
    Dims4 (knnIdxPure points queries K) B L M K ∧
    Forall4 (fun i => i < N) (knnIdxPure points queries K) := by
  obtain ⟨hplen, hpmem⟩ := hp
  obtain ⟨hqlen, hqmem⟩ := hq
  refine ⟨⟨by simp [knnValPure, List.length_zipWith, hplen, hqlen], ?_⟩,
    ⟨by simp [knnIdxPure, List.length_zipWith, hplen, hqlen], ?_⟩, ?_⟩
  · intro y hy
    obtain ⟨pb, hpb, qb, hqb, rfl⟩ := mem_zipWith hy
    refine ⟨by simp [List.length_zipWith, (hpmem pb hpb).1, (hqmem qb hqb).1], ?_⟩
    intro z hz
    obtain ⟨p, hp2, q, hq2, rfl⟩ := mem_zipWith hz
    have hpd := (hpmem pb hpb).2 p hp2
    have hqd := (hqmem qb hqb).2 q hq2
    have hgo := knnGroupOk_dims hpd.1 hqd.1 hK
    exact gatherPts_dims hpd hgo.1 hgo.2
  · intro y hy
    obtain ⟨pb, hpb, qb, hqb, rfl⟩ := mem_zipWith hy
    refine ⟨by simp [List.length_zipWith, (hpmem pb hpb).1, (hqmem qb hqb).1], ?_⟩
    intro z hz
    obtain ⟨p, hp2, q, hq2, rfl⟩ := mem_zipWith hz
    exact (knnGroupOk_dims ((hpmem pb hpb).2 p hp2).1 ((hqmem qb hqb).2 q hq2).1 hK).1
  · intro a ha b hb c hc i hi
    obtain ⟨pb, hpb, qb, hqb, rfl⟩ := mem_zipWith ha
    obtain ⟨p, hp2, q, hq2, rfl⟩ := mem_zipWith hb
    exact (knnGroupOk_dims ((hpmem pb hpb).2 p hp2).1 ((hqmem qb hqb).2 q hq2).1 hK).2
      c hc i hi

lemma linear_length (W : Mat) (b v : Vec) :
    (linear W b v).length = min W.length b.length := by
  simp [linear]

lemma mapVec4_dims {f : Vec → Vec} {x : T5} {B L M K c c2 : ℕ}
    (hf : ∀ v : Vec, v.length = c → (f v).length = c2)
    (hx : Dims5 x B L M K c) : Dims5 (mapVec4 f x) B L M K c2 := by
  obtain ⟨hlen, hmem⟩ := hx
  refine ⟨by simp [mapVec4, hlen], ?_⟩
  intro a ha
  simp only [mapVec4, List.mem_map] at ha
  obtain ⟨a0, ha0, rfl⟩ := ha
  obtain ⟨h1, h2⟩ := hmem a0 ha0
  refine ⟨by simp [h1], ?_⟩
  intro b hb
  simp only [List.mem_map] at hb
  obtain ⟨b0, hb0, rfl⟩ := hb
  obtain ⟨h3, h4⟩ := h2 b0 hb0
  refine ⟨by simp [h3], ?_⟩
  intro t ht
  simp only [List.mem_map] at ht
  obtain ⟨t0, ht0, rfl⟩ := ht
  obtain ⟨h5, h6⟩ := h4 t0 ht0
  refine ⟨by simp [h5], ?_⟩
  intro v hv
  simp only [List.mem_map] at hv
  obtain ⟨v0, hv0, rfl⟩ := hv
  exact hf v0 (h6 v0 hv0)

lemma batchNorm3d_dims {sq : ℚ → ℚ} {g bv : Vec} {x : T5} {B L M K c : ℕ}
    (hx : Dims5 x B L M K c) : Dims5 (batchNorm3d sq g bv x) B L M K c :=
  mapVec4_dims (fun v hv => by simp [hv]) hx

lemma map5_dims {f : ℚ → ℚ} {x : T5} {B L M K c : ℕ}
    (hx : Dims5 x B L M K c) : Dims5 (map5 f x) B L M K c :=
  mapVec4_dims (fun v hv => by simp [hv]) hx

lemma lift_forward_dims {sq : ℚ → ℚ} {p : LiftParams} {x : T5} {B L M K c0 c1 c2 : ℕ}
    (hx : Dims5 x B L M K c0) (hw1 : p.w1.length = c1) (hb1 : p.b1.length = c1)
    (hw2 : p.w2.length = c2) (hb2 : p.b2.length = c2) :
    Dims5 (Lift.forward sq p x) B L M K c2 := by
  have hlin1 : ∀ v : Vec, v.length = c0 → (linear p.w1 p.b1 v).length = c1 := by
    intro v _
    rw [linear_length, hw1, hb1, min_self]
  have hlin2 : ∀ v : Vec, v.length = c1 → (linear p.w2 p.b2 v).length = c2 := by
    intro v _
    rw [linear_length, hw2, hb2, min_self]
  unfold Lift.forward
  split
  · exact map5_dims (mapVec4_dims hlin2 (batchNorm3d_dims
      (map5_dims (mapVec4_dims hlin1 (batchNorm3d_dims hx)))))
  · exact map5_dims (mapVec4_dims hlin2 (map5_dims (mapVec4_dims hlin1 hx)))

lemma localOffsets_dims {queries : T4} {nn_pts : T5} {B L M K : ℕ}
    (hq : Dims4 queries B L M 3) (hv : Dims5 nn_pts B L M K 3) :
    Dims5 (localOffsets queries nn_pts) B L M K 3 := by
  obtain ⟨hqlen, hqmem⟩ := hq
  obtain ⟨hvlen, hvmem⟩ := hv
  refine ⟨by simp [localOffsets, List.length_zipWith, hqlen, hvlen], ?_⟩
  intro a ha
  obtain ⟨qb, hqb, vb, hvb, rfl⟩ := mem_zipWith ha
  refine ⟨by simp [List.length_zipWith, (hqmem qb hqb).1, (hvmem vb hvb).1], ?_⟩
  intro b hb
  obtain ⟨ql, hql, vl, hvl, rfl⟩ := mem_zipWith hb
  have hqd := (hqmem qb hqb).2 ql hql
  have hvd := (hvmem vb hvb).2 vl hvl
  refine ⟨by simp [List.length_zipWith, hqd.1, hvd.1], ?_⟩
  intro t ht
  obtain ⟨q, hq2, vm, hvm2, rfl⟩ := mem_zipWith ht
  have hvd2 := hvd.2 vm hvm2
  refine ⟨by simp [hvd2.1], ?_⟩
  intro v hv2
  simp only [List.mem_map] at hv2
  obtain ⟨pvec, hpvec, rfl⟩ := hv2
  simp [Dims1, List.length_zipWith, hqd.2 q hq2, hvd2.2 pvec hpvec]

lemma concatLast_dims {x y : T5} {B L M K c1 c2 : ℕ}
    (hx : Dims5 x B L M K c1) (hy : Dims5 y B L M K c2) :
    Dims5 (concatLast x y) B L M K (c1 + c2) := by
  obtain ⟨hxlen, hxmem⟩ := hx
  obtain ⟨hylen, hymem⟩ := hy
  refine ⟨by simp [concatLast, List.length_zipWith, hxlen, hylen], ?_⟩
  intro a ha
  obtain ⟨xa, hxa, ya, hya, rfl⟩ := mem_zipWith ha
  refine ⟨by simp [List.length_zipWith, (hxmem xa hxa).1, (hymem ya hya).1], ?_⟩
  intro b hb
  obtain ⟨xb, hxb, yb, hyb, rfl⟩ := mem_zipWith hb
  have hxd := (hxmem xa hxa).2 xb hxb
  have hyd := (hymem ya hya).2 yb hyb
  refine ⟨by simp [List.length_zipWith, hxd.1, hyd.1], ?_⟩
  intro t ht
  obtain ⟨xt, hxt, yt, hyt, rfl⟩ := mem_zipWith ht
  have hxd2 := hxd.2 xt hxt
  have hyd2 := hyd.2 yt hyt
  refine ⟨by simp [List.length_zipWith, hxd2.1, hyd2.1], ?_⟩
  intro v hv
  obtain ⟨xv, hxv, yv, hyv, rfl⟩ := mem_zipWith hv
  simp [Dims1, hxd2.2 xv hxv, hyd2.2 yv hyv]

lemma convProj_dims {W : T3} {bias : Vec} (kD : ℕ) {x : T5} {B L M D c O : ℕ}
    (hx : Dims5 x B L M D c) (hW : W.length = O) (hb : bias.length = O) :
    Dims5 (convProj W bias kD x) B L M (D + 1 - kD) O := by
  obtain ⟨hlen, hmem⟩ := hx
  refine ⟨by simp [convProj, hlen], ?_⟩
  intro a ha
  simp only [convProj, List.mem_map] at ha
  obtain ⟨a0, ha0, rfl⟩ := ha
  obtain ⟨h1, h2⟩ := hmem a0 ha0
  refine ⟨by simp [h1], ?_⟩
  intro b hb2
  simp only [List.mem_map] at hb2
  obtain ⟨b0, hb0, rfl⟩ := hb2
  obtain ⟨h3, h4⟩ := h2 b0 hb0
  refine ⟨by simp [h3], ?_⟩
  intro t ht
  simp only [List.mem_map] at ht
  obtain ⟨mat, hmat, rfl⟩ := ht
  obtain ⟨h5, h6⟩ := h4 mat hmat
  refine ⟨by simp [h5], ?_⟩
  intro row hrow
  simp only [List.mem_map, List.mem_range] at hrow
  obtain ⟨d2, hd2, rfl⟩ := hrow
  simp [Dims1, List.length_zip, hW, hb]

lemma squeeze3_dims {x : T5} {B L M O : ℕ} (hx : Dims5 x B L M 1 O) :
    Dims4 (squeeze3 x) B L M O := by
  obtain ⟨hlen, hmem⟩ := hx
  refine ⟨by simp [squeeze3, hlen], ?_⟩
  intro a ha
  simp only [squeeze3, List.mem_map] at ha
  obtain ⟨a0, ha0, rfl⟩ := ha
  obtain ⟨h1, h2⟩ := hmem a0 ha0
  refine ⟨by simp [h1], ?_⟩
  intro b hb
  simp only [List.mem_map] at hb
  obtain ⟨b0, hb0, rfl⟩ := hb
  obtain ⟨h3, h4⟩ := h2 b0 hb0
  refine ⟨by simp [h3], ?_⟩
  intro v hv
  simp only [List.mem_map] at hv
  obtain ⟨mat, hmat, rfl⟩ := hv
  obtain ⟨h5, h6⟩ := h4 mat hmat
  exact h6 _ (getD_mem (by omega) [])

/-- C6: for well-shaped nonempty inputs with M < N and K ≤ N, the `knn`
coordinate output has shape B × L × M × K × 3 and its index output has
shape B × L × M × K; and `ShellConv.forward` on such inputs together with
a compatible previous-feature tensor succeeds with an output of shape
B × L × M × out_features (parameter tensors have the sizes the constructor
allocates: the two `Lift` linear layers and the projection convolution's
out_features filters and biases, with K = S · division). -/
theorem shellconv_output_shapes {points queries fp : T4} (sq : ℚ → ℚ)
    {sc : ShellConvParams} {B L N M F J : ℕ}
    (hp : Dims4 points B L N 3) (hq : Dims4 queries B L M 3) (hf : Dims4 fp B L N F)
    (hB : 1 ≤ B) (hL : 1 ≤ L) (_hMN : M < N) (hK : sc.K ≤ N)
    (hdiv : sc.K = sc.S * sc.division) (hS : 1 ≤ sc.S)
    (hw1 : sc.lift.w1.length = J) (hb1 : sc.lift.b1.length = J)
    (hw2 : sc.lift.w2.length = 64) (hb2 : sc.lift.b2.length = 64)
    (hcW : sc.convW.length = sc.out_features) (hcB : sc.convB.length = sc.out_features) :
    ∃ v ix out,
      knn points queries sc.K = Except.ok (some v, some ix) ∧
      Dims5 v B L M sc.K 3 ∧ Dims4 ix B L M sc.K ∧
      ShellConv.forward sq sc points queries (some fp) = Except.ok out ∧
      Dims4 out B L M sc.out_features := by
  have hknn := knn_eq hp hq hB hL hK
  have hsh := knn_shape hp hq hK
  have hg := gather_feature_eq hf hsh.2.1 hB hL
  have hoff : Dims5 (localOffsets queries (knnValPure points queries sc.K)) B L M sc.K 3 :=
    localOffsets_dims hq hsh.1
  have hlift : Dims5 (Lift.forward sq sc.lift
      (localOffsets queries (knnValPure points queries sc.K))) B L M sc.K 64 :=
    lift_forward_dims hoff hw1 hb1 hw2 hb2
  have hgd : Dims5 (gatherPure fp (knnIdxPure points queries sc.K)) B L M sc.K F :=
    gatherPure_dims hf hsh.2.1 hsh.2.2
  have hcat : Dims5 (concatLast
      (Lift.forward sq sc.lift (localOffsets queries (knnValPure points queries sc.K)))
      (gatherPure fp (knnIdxPure points queries sc.K))) B L M sc.K (64 + F) :=
    concatLast_dims hlift hgd
  have hmax : Dims5 (maxPoolNeighbor sc.S (concatLast
      (Lift.forward sq sc.lift (localOffsets queries (knnValPure points queries sc.K)))
      (gatherPure fp (knnIdxPure points queries sc.K)))) B L M sc.division (64 + F) :=
    maxPool_dims hcat hdiv hS
  have hpaths : ∀ pre : T5, Dims5 pre B L M sc.division (64 + F) →
      Dims4 (squeeze3 (convProj sc.convW sc.convB sc.division pre)) B L M sc.out_features := by
    intro pre hpre
    apply squeeze3_dims
    have h := convProj_dims sc.division hpre hcW hcB
    rwa [show sc.division + 1 - sc.division = 1 by omega] at h
  rcases hcbn : sc.conv_bn with _ | gb
  · refine ⟨knnValPure points queries sc.K, knnIdxPure points queries sc.K,
      squeeze3 (convProj sc.convW sc.convB sc.division (maxPoolNeighbor sc.S (concatLast
        (Lift.forward sq sc.lift (localOffsets queries (knnValPure points queries sc.K)))
        (gatherPure fp (knnIdxPure points queries sc.K))))),
      hknn, hsh.1, hsh.2.1, ?_, hpaths _ hmax⟩
    simp only [ShellConv.forward, hknn, hg, hcbn]
  · refine ⟨knnValPure points queries sc.K, knnIdxPure points queries sc.K,
      squeeze3 (convProj sc.convW sc.convB sc.division (batchNorm3d sq gb.1 gb.2
        (maxPoolNeighbor sc.S (concatLast
          (Lift.forward sq sc.lift (localOffsets queries (knnValPure points queries sc.K)))
          (gatherPure fp (knnIdxPure points queries sc.K)))))),
      hknn, hsh.1, hsh.2.1, ?_, hpaths _ (batchNorm3d_dims hmax)⟩
    simp only [ShellConv.forward, hknn, hg, hcbn]

/-- Witness for C6: B = L = 1, N = 2 reference points, M = 1 query, K = 2,
S = 1, division = 2, out_features = 1, prev feature width 1. -/
theorem shellconv_output_shapes_witness :
    ∃ v ix out,
      knn [[[[0,0,0],[1,0,0]]]] [[[[0,0,0]]]]
        (ShellConvParams.K ⟨1, 1, 2, 1, 2,
          ⟨true, [], [], [[0,0,0]], [0], [], [], List.replicate 64 [0], List.replicate 64 0⟩,
          none, [[[0,0]]], [0]⟩) = Except.ok (some v, some ix) ∧
      Dims5 v 1 1 1 (ShellConvParams.K ⟨1, 1, 2, 1, 2,
          ⟨true, [], [], [[0,0,0]], [0], [], [], List.replicate 64 [0], List.replicate 64 0⟩,
          none, [[[0,0]]], [0]⟩) 3 ∧
      Dims4 ix 1 1 1 (ShellConvParams.K ⟨1, 1, 2, 1, 2,
          ⟨true, [], [], [[0,0,0]], [0], [], [], List.replicate 64 [0], List.replicate 64 0⟩,
          none, [[[0,0]]], [0]⟩) ∧
      ShellConv.forward (fun r => r) ⟨1, 1, 2, 1, 2,
          ⟨true, [], [], [[0,0,0]], [0], [], [], List.replicate 64 [0], List.replicate 64 0⟩,
          none, [[[0,0]]], [0]⟩
        [[[[0,0,0],[1,0,0]]]] [[[[0,0,0]]]] (some [[[[1],[2]]]]) = Except.ok out ∧
      Dims4 out 1 1 1 (ShellConvParams.out_features ⟨1, 1, 2, 1, 2,
          ⟨true, [], [], [[0,0,0]], [0], [], [], List.replicate 64 [0], List.replicate 64 0⟩,
          none, [[[0,0]]], [0]⟩) :=
  shellconv_output_shapes (N := 2) (F := 1) (J := 1) (fun r => r)
    (by decide) (by decide) (by decide) (by decide) (by decide) (by decide) (by decide)
    (by decide) (by decide) (by decide) (by decide) (by decide) (by decide) (by decide)
    (by decide)
